import Mathlib

/-!
Verification of the testing-agent repository's core control logic:
artifact extraction from fenced code blocks, the per-user rate limiter,
the Telegram handler's session-state and error reporting, and the
coverage/syntax capability providers.  Strings are modelled as `List Char`,
timestamps as rationals, and the handful of regular expressions the code
uses (all of the shape `OPEN(.*?)CLOSE` with `re.DOTALL`) are modelled by
an explicit leftmost-shortest scanner.
-/

namespace TestingAgent

/-- Whitespace characters removed by Python's `str.strip()` (ASCII range). -/
def pyIsSpace (c : Char) : Bool :=
  c == ' ' || c == '\t' || c == '\n' || c == '\r' || c == Char.ofNat 11 || c == Char.ofNat 12

/-- Model of Python `str.strip()`: drop leading and trailing whitespace. -/
def strip (s : List Char) : List Char :=
  ((s.dropWhile pyIsSpace).reverse.dropWhile pyIsSpace).reverse

/-- Split a string at the first (leftmost) occurrence of `pat`:
returns the part strictly before the occurrence and the part strictly
after it, or `none` when `pat` does not occur. -/
def splitAtFirst (pat : List Char) : List Char → Option (List Char × List Char)
  | [] => if pat.isEmpty then some ([], []) else none
  | c :: rest =>
    if pat.isPrefixOf (c :: rest) then some ([], (c :: rest).drop pat.length)
    else
      match splitAtFirst pat rest with
      | some (pre, post) => some (c :: pre, post)
      | none => none

/-- Model of Python's substring test `pat in s`. -/
def containsSub (pat s : List Char) : Bool :=
  (splitAtFirst pat s).isSome

/-- Fuelled scanner behind `findall`.  One unit of fuel is spent per match,
and a match consumes at least one character, so `s.length + 1` fuel is
always enough. -/
def findallAux (openT closeT : List Char) : Nat → List Char → List (List Char)
  | 0, _ => []
  | fuel + 1, s =>
    match splitAtFirst openT s with
    | none => []
    | some (_, afterOpen) =>
      match splitAtFirst closeT afterOpen with
      | none => []
      | some (capture, afterClose) =>
        capture :: findallAux openT closeT fuel afterClose

/-- Model of `re.findall(OPEN + "(.*?)" + CLOSE, s, re.DOTALL)` for the
literal delimiters used by the program (where `CLOSE` is a prefix of
`OPEN`, so a failed closing search can never be rescued by a later
opening): the list of captures of non-overlapping leftmost-shortest
matches, scanned left to right. -/
def findall (openT closeT s : List Char) : List (List Char) :=
  findallAux openT closeT (s.length + 1) s

/-- The closing delimiter of a fenced block. -/
def fence : List Char := ("```").toList

/-- Opening delimiter of the pattern `r'```python\n(.*?)```'`. -/
def tagPython : List Char := ("```python\n").toList

/-- Opening delimiter of the pattern `r'```py\n(.*?)```'`. -/
def tagPy : List Char := ("```py\n").toList

/-- Opening delimiter of the pattern `r'```\n(.*?)```'`. -/
def tagGeneric : List Char := ("```\n").toList

/-- The literal checked by `"```python" in tests_content` (no newline). -/
def litPython : List Char := ("```python").toList

/-- Model of Python's `max(blocks, key=len)`: the first element of
maximal length (`max` keeps the current best on ties). -/
def maxLen : List (List Char) → List Char
  | [] => []
  | [b] => b
  | b :: b2 :: bs =>
    let m := maxLen (b2 :: bs)
    if b.length < m.length then m else b

/-- Embedding of `extract_code_from_message` (bot/telegram_bot.py):
try the three fenced-block patterns in order and return the FIRST
match stripped; with no match, return the whole text stripped. -/
def extract_code_from_message (text : List Char) : List Char :=
  match findall tagPython fence text with
  | m :: _ => strip m
  | [] =>
    match findall tagPy fence text with
    | m :: _ => strip m
    | [] =>
      match findall tagGeneric fence text with
      | m :: _ => strip m
      | [] => strip text

/-- Embedding of the inline markdown-block extraction shared by
`generate_tests` (bot/telegram_bot.py) and `run_and_save` (src/crew.py):
if the text mentions "```python", take the longest python block;
otherwise if it mentions "```", take the longest generic block;
otherwise leave the text unchanged.  When the pattern finds no block
the text is also left unchanged. -/
def extractLongestBlock (tc : List Char) : List Char :=
  if containsSub litPython tc = true then
    match findall tagPython fence tc with
    | [] => tc
    | b :: bs => maxLen (b :: bs)
  else if containsSub fence tc = true then
    match findall tagGeneric fence tc with
    | [] => tc
    | b :: bs => maxLen (b :: bs)
  else tc

/-- The dictionary returned by `TestingCrew.run` (src/crew.py): the raw
aggregate output and the ordered per-task outputs
(`[0] = analyze, [1] = write_tests, [2] = validate`). -/
structure CrewResult where
  tasks_output : List (List Char)
  raw : List Char
deriving DecidableEq

/-- Embedding of the result-processing tail of `generate_tests`
(bot/telegram_bot.py): select the WriteTests output (index 1) when at
least two task outputs exist, else the raw aggregate; extract the
longest fenced block; return the stripped text, or `none` (Python
`None`) when nothing non-empty was produced. -/
def genTests (r : CrewResult) : Option (List Char) :=
  let tests_content :=
    if r.tasks_output ≠ [] ∧ 2 ≤ r.tasks_output.length then r.tasks_output.getD 1 []
    else r.raw
  let tests_content2 :=
    if tests_content ≠ [] then extractLongestBlock tests_content else tests_content
  if tests_content2 ≠ [] then some (strip tests_content2) else none

/-- Embedding of the result-processing tail of `run_and_save`
(src/crew.py): same selection and extraction as `genTests`, but an
empty final artifact raises `ValueError` (modelled as `Except.error`),
and the stripped tests are written out (modelled as `Except.ok`). -/
def run_and_save_tests (r : CrewResult) : Except Unit (List Char) :=
  let tests_content :=
    if r.tasks_output ≠ [] ∧ 2 ≤ r.tasks_output.length then r.tasks_output.getD 1 []
    else r.raw
  let tests_content2 :=
    if tests_content ≠ [] then extractLongestBlock tests_content else tests_content
  if tests_content2 = [] ∨ strip tests_content2 = [] then Except.error ()
  else Except.ok (strip tests_content2)

/-- Spec-side definition (§4.3 of the design): the final test code
obtained by "applying the Artifact Extractor" to one chosen stage text:
extract the longest fenced block, strip it, and report `none` when
nothing usable remains. -/
def deliveredArtifact (t : List Char) : Option (List Char) :=
  let a := if t ≠ [] then extractLongestBlock t else t
  if a ≠ [] then some (strip a) else none

/-- Spec-side definition: the saved artifact for the `run_and_save`
path — the Artifact Extractor applied to one chosen stage text, an
empty result being an error. -/
def savedArtifact (t : List Char) : Except Unit (List Char) :=
  let a := if t ≠ [] then extractLongestBlock t else t
  if a = [] ∨ strip a = [] then Except.error ()
  else Except.ok (strip a)

/-- Per-user rate-limit record stored in the `RATE_LIMIT` dictionary
(bot/telegram_bot.py): the retained request timestamps and the start of
the current window. -/
structure UserWindow where
  requests : List ℚ
  last_reset : ℚ
deriving DecidableEq

/-- Constant `RATE_LIMIT_SECONDS = 60` (bot/telegram_bot.py). -/
def RATE_LIMIT_SECONDS : ℚ := 60

/-- Constant `MAX_REQUESTS_PER_MINUTE = 5` (bot/telegram_bot.py). -/
def MAX_REQUESTS_PER_MINUTE : Nat := 5

/-- Python `int()` truncation toward zero on a rational. -/
def pyInt (q : ℚ) : ℤ :=
  q.num.tdiv (q.den : ℤ)

/-- Embedding of `check_rate_limit` (bot/telegram_bot.py) as a pure state
transition.  `st` is the user's current `RATE_LIMIT` entry (`none` when
absent, in which case a fresh entry with `last_reset = now` is created);
timestamps, produced by `datetime.now().timestamp()`, are rationals.
Returns the updated entry, the admission flag, and the reported
`seconds_until_reset`. -/
def check_rate_limit (st : Option UserWindow) (now : ℚ) : UserWindow × Bool × ℤ :=
  let ud := match st with
    | none => { requests := [], last_reset := now }
    | some u => u
  let ud2 := if RATE_LIMIT_SECONDS < now - ud.last_reset then
      ({ requests := [], last_reset := now } : UserWindow)
    else ud
  if MAX_REQUESTS_PER_MINUTE ≤ ud2.requests.length then
    (ud2, false, max 0 (pyInt (RATE_LIMIT_SECONDS - (now - ud2.last_reset))))
  else
    ({ requests := ud2.requests ++ [now], last_reset := ud2.last_reset }, true, 0)

/-- Run a sequence of admission calls for one user, starting from a given
(possibly absent) rate-limit entry, threading the state and collecting
each call's `(allowed, seconds_until_reset)` answer in order. -/
def runCalls : Option UserWindow → List ℚ → Option UserWindow × List (Bool × ℤ)
  | st, [] => (st, [])
  | st, t :: ts =>
    let r := check_rate_limit st t
    let rest := runCalls (some r.1) ts
    (rest.1, (r.2.1, r.2.2) :: rest.2)

/-- Values stored in the `USER_STATES` dictionary (bot/telegram_bot.py);
a user absent from the dictionary is in the spec's `Idle` state. -/
inductive PyUserState
  | waiting_code
  | waiting_file
deriving DecidableEq

/-- The distinct user-facing replies `handle_code_message` can produce:
the rate-limit message, the two input rejections, the delivered tests,
and the generic "couldn't generate tests" failure report. -/
inductive Reply
  | rate_limited (wait : ℤ)
  | no_code
  | not_python
  | tests_ok (tests : List Char)
  | gen_failed
deriving DecidableEq

/-- The bot's two process-wide mutable maps, keyed by user id:
`USER_STATES` and `RATE_LIMIT` (bot/telegram_bot.py). -/
structure BotState where
  user_states : Nat → Option PyUserState
  rate_limit : Nat → Option UserWindow

/-- The keyword list of the code-shape check in `handle_code_message`:
`['def ', 'class ', 'import ', '=', 'return']`. -/
def PYTHON_KEYWORDS : List (List Char) :=
  [("def ").toList, ("class ").toList, ("import ").toList, ("=").toList, ("return").toList]

/-- Embedding of `any(keyword in code for keyword in [...])`. -/
def looks_like_python (code : List Char) : Bool :=
  PYTHON_KEYWORDS.any (fun k => containsSub k code)

/-- Embedding of `generate_tests` (bot/telegram_bot.py) around an external
pipeline: `crew` gives the outcome of `crew.run` on the temp file holding
`code` — `Except.ok` a `CrewResult`, or `Except.error` the message of a
raised exception (the bare `except Exception` makes the function return
`None` in that case).  The second component records whether the
temporary source file written at the start still exists on return:
`os.unlink` runs only after `crew.run` returns normally, so an exception
skips it. -/
def generate_tests (crew : List Char → Except (List Char) CrewResult)
    (code : List Char) : Option (List Char) × Bool :=
  match crew code with
  | Except.error _ => (none, true)
  | Except.ok r => (genTests r, false)

/-- Embedding of `handle_code_message` (bot/telegram_bot.py) as a pure
transition on the bot's maps.  `gen` is the outcome of the
`generate_tests` call (which never raises: it catches every exception
internally); chat-transport sends are external effects represented by
the returned `Reply`.  The rate-limit check runs first and always
commits its state update; the success branch (a truthy `tests`) is the
only one that pops the user's `USER_STATES` entry. -/
def handle_code_message (gen : List Char → Option (List Char)) (st : BotState)
    (uid : Nat) (now : ℚ) (text : List Char) : BotState × Reply :=
  let rl := check_rate_limit (st.rate_limit uid) now
  let st1 : BotState :=
    { st with rate_limit := fun u => if u = uid then some rl.1 else st.rate_limit u }
  if rl.2.1 = false then (st1, Reply.rate_limited rl.2.2)
  else
    let code := extract_code_from_message text
    if code = [] then (st1, Reply.no_code)
    else if looks_like_python code = false then (st1, Reply.not_python)
    else
      match gen code with
      | some tests =>
        if tests = [] then (st1, Reply.gen_failed)
        else
          ({ st1 with user_states := fun u => if u = uid then none else st1.user_states u },
           Reply.tests_ok tests)
      | none => (st1, Reply.gen_failed)

/-- Exceptions (subclasses of Python `Exception`) relevant to the two
capability providers in src/src/tools/coverage_tool.py, including the
UnboundLocalError raised when a handler references a function-local
name whose binding statement never executed. -/
inductive PyExc
  | importError
  | timeoutExpired
  | unboundLocalError
  | other (msg : List Char)
deriving DecidableEq

/-- The `json.dumps` diagnostic for a missing coverage/pytest dependency. -/
def coverage_import_error_json : List Char :=
  ("\x7b\"error\": \"coverage package not installed\", \"fix\": \"pip install coverage pytest\"\x7d").toList

/-- The `json.dumps` diagnostic for a test-run timeout. -/
def coverage_timeout_json : List Char :=
  ("\x7b\"error\": \"Test execution timed out\", \"fix\": \"Check for infinite loops or long-running tests\"\x7d").toList

/-- The `json.dumps` diagnostic for any other exception in the body. -/
def coverage_generic_json (msg : List Char) : List Char :=
  ("\x7b\"error\": \"").toList ++ msg ++ ("\"\x7d").toList

/-- Outcomes of the try-block body of `CoverageTool._run`, with the
program point of a raise made explicit, because `import json`
(coverage_tool.py line 51) runs inside the try after `import coverage`
(line 49) and binds a function-local name: a handler can only call
`json.dumps` if execution got past line 51.  An ImportError raised by
an import statement itself (the missing-dependency case) therefore
leaves `json` unbound, while one raised later does not.  Import
statements raising exceptions other than ImportError are not
modelled. -/
inductive CoverageBody
  /-- an ImportError raised before `import json` executed — the
  missing-dependency case, `import coverage` failing at line 49. -/
  | importErrorEarly
  /-- an ImportError raised after the local imports completed. -/
  | importErrorLate
  /-- `subprocess.run` raised TimeoutExpired (imports completed). -/
  | timeoutExpired
  /-- any other Exception raised after the imports completed. -/
  | otherExc (msg : List Char)
  /-- the body completed and rendered the coverage report. -/
  | completed (report : List Char)
deriving DecidableEq

/-- Embedding of `CoverageTool._run` around its try-block body.  The
except clauses map ImportError, `subprocess.TimeoutExpired` and any
other `Exception` to diagnostic JSON strings — but each handler calls
the function-local `json.dumps`, so when the ImportError came from the
imports themselves (`CoverageBody.importErrorEarly`) the handler hits
the unbound local `json` and raises UnboundLocalError to the caller
(`Except.error`) instead of returning the diagnostic. -/
def CoverageTool_run (body : CoverageBody) : Except PyExc (List Char) :=
  match body with
  | CoverageBody.completed report => Except.ok report
  | CoverageBody.importErrorEarly => Except.error PyExc.unboundLocalError
  | CoverageBody.importErrorLate => Except.ok coverage_import_error_json
  | CoverageBody.timeoutExpired => Except.ok coverage_timeout_json
  | CoverageBody.otherExc msg => Except.ok (coverage_generic_json msg)

/-- Data of a `SyntaxError` raised by `compile`. -/
structure SyntaxErrInfo where
  msg : List Char
  lineno : ℤ
  offset : ℤ
  errtext : List Char
deriving DecidableEq

/-- Diagnostic for a non-python language. -/
def syntax_not_implemented_json (lang : List Char) : List Char :=
  ("\x7b\"valid\": null, \"message\": \"Syntax checking for ").toList
    ++ lang ++ (" not implemented\"\x7d").toList

/-- Confirmation for syntactically valid code. -/
def syntax_valid_json : List Char :=
  ("\x7b\"valid\": true, \"message\": \"Code syntax is valid\"\x7d").toList

/-- Diagnostic for a `SyntaxError` from `compile`. -/
def syntax_invalid_json (e : SyntaxErrInfo) : List Char :=
  ("\x7b\"valid\": false, \"error\": \"").toList ++ e.msg
    ++ ("\", \"line\": ").toList ++ (toString e.lineno).toList ++ ("\x7d").toList

/-- Outcomes of `compile(code, "<string>", "exec")`: valid source, a
raised SyntaxError, or another raised exception — e.g. the ValueError
for a null-byte source on CPython 3.11 and earlier. -/
inductive CompileOutcome
  | ok
  | syntaxError (e : SyntaxErrInfo)
  | otherExc (exc : PyExc)
deriving DecidableEq

/-- Embedding of `SyntaxCheckerTool._run`: its `import json` sits at
the top of the method outside the try, so `json` is always bound; the
try around `compile` catches only SyntaxError and renders it, so any
other exception from `compile` escapes to the caller
(`Except.error`). -/
def SyntaxCheckerTool_run (language : List Char) (compileOutcome : CompileOutcome) :
    Except PyExc (List Char) :=
  if language ≠ ("python").toList then Except.ok (syntax_not_implemented_json language)
  else
    match compileOutcome with
    | CompileOutcome.ok => Except.ok syntax_valid_json
    | CompileOutcome.syntaxError e => Except.ok (syntax_invalid_json e)
    | CompileOutcome.otherExc exc => Except.error exc

/-- A pipeline oracle whose run always raises (e.g. `get_llm` raising
`ValueError` when no API key is configured). -/
def crewErr : List Char → Except (List Char) CrewResult :=
  fun _ => Except.error (("No API key found").toList)

/-- A pipeline oracle whose run succeeds but yields no usable artifact
(empty task-output list and empty raw output). -/
def crewEmpty : List Char → Except (List Char) CrewResult :=
  fun _ => Except.ok { tasks_output := [], raw := [] }

/-- A concrete code-looking message (contains `def ` and `return`). -/
def codeText : List Char := ("def add(a, b): return a + b").toList

/-- A concrete non-code message: none of the five keywords occur. -/
def helloText : List Char := ("hello").toList

/-- A concrete bot state: user 7 is awaiting code and has no rate entry. -/
def botSt0 : BotState :=
  { user_states := fun _ => some PyUserState.waiting_code
    rate_limit := fun _ => none }

/-- A concrete fresh rate window for the C10 witness. -/
def w0 : UserWindow := { requests := [], last_reset := 0 }

/-- A concrete bot state whose user 7 has rate window `w0`. -/
def botSt2 : BotState :=
  { user_states := fun _ => none
    rate_limit := fun _ => some w0 }

/-- The spec's tie-break example: a 10-character and a 50-character
fenced python block in one text. -/
def ex2 : List Char :=
  tagPython ++ List.replicate 10 'a' ++ fence
    ++ tagPython ++ List.replicate 50 'b' ++ fence

theorem splitAtFirst_eq {pat s pre post : List Char}
    (h : splitAtFirst pat s = some (pre, post)) : s = pre ++ pat ++ post := by
  induction s generalizing pre post with
  | nil =>
    unfold splitAtFirst at h
    by_cases hp : pat.isEmpty
    · rw [if_pos hp] at h
      simp at h
      obtain ⟨h1, h2⟩ := h
      subst h1; subst h2
      simp [List.isEmpty_iff] at hp
      simp [hp]
    · rw [if_neg hp] at h
      exact absurd h (by simp)
  | cons c rest ih =>
    unfold splitAtFirst at h
    by_cases hp : pat.isPrefixOf (c :: rest)
    · rw [if_pos hp] at h
      simp at h
      obtain ⟨h1, h2⟩ := h
      subst h1; subst h2
      obtain ⟨t, ht⟩ := List.isPrefixOf_iff_prefix.mp hp
      conv_lhs => rw [← ht]
      rw [← ht, List.drop_left]
      simp
    · rw [if_neg hp] at h
      cases hsp : splitAtFirst pat rest with
      | none => rw [hsp] at h; simp at h
      | some pp =>
        obtain ⟨pre', post'⟩ := pp
        rw [hsp] at h
        simp at h
        obtain ⟨h1, h2⟩ := h
        subst h1; subst h2
        have := ih hsp
        simp [this]

theorem splitAtFirst_none {pat s : List Char}
    (h : splitAtFirst pat s = none) : ∀ p q : List Char, s ≠ p ++ pat ++ q := by
  induction s with
  | nil =>
    intro p q hc
    unfold splitAtFirst at h
    by_cases hp : pat.isEmpty
    · rw [if_pos hp] at h; simp at h
    · have : pat = [] := by
        rcases List.append_eq_nil.mp hc.symm with ⟨h1, h2⟩
        exact (List.append_eq_nil.mp h1).2
      simp [List.isEmpty_iff, this] at hp
  | cons c rest ih =>
    intro p q hc
    unfold splitAtFirst at h
    by_cases hp : pat.isPrefixOf (c :: rest)
    · rw [if_pos hp] at h; simp at h
    · rw [if_neg hp] at h
      cases hsp : splitAtFirst pat rest with
      | some pp => rw [hsp] at h; obtain ⟨x, y⟩ := pp; simp at h
      | none =>
        cases p with
        | nil =>
          simp at hc
          exact hp ( List.isPrefixOf_iff_prefix.mpr ⟨q, hc.symm⟩)
        | cons p0 pt =>
          have : rest = pt ++ pat ++ q := by
            have h2 := hc
            simp at h2
            simpa [List.append_assoc] using h2.2
          exact ih hsp pt q this


theorem splitAtFirst_min {pat s pre post : List Char}
    (h : splitAtFirst pat s = some (pre, post)) :
    ∀ p q : List Char, s = p ++ pat ++ q → pre.length ≤ p.length := by
  induction s generalizing pre post with
  | nil =>
    intro p q hc
    unfold splitAtFirst at h
    by_cases hp : pat.isEmpty
    · rw [if_pos hp] at h
      simp at h
      rw [h.1]
      simp
    · rw [if_neg hp] at h; simp at h
  | cons c rest ih =>
    intro p q hc
    unfold splitAtFirst at h
    by_cases hp : pat.isPrefixOf (c :: rest)
    · rw [if_pos hp] at h
      simp at h
      rw [h.1]
      simp
    · rw [if_neg hp] at h
      cases hsp : splitAtFirst pat rest with
      | none => rw [hsp] at h; simp at h
      | some pp =>
        obtain ⟨pre', post'⟩ := pp
        rw [hsp] at h
        simp at h
        cases p with
        | nil =>
          exfalso
          simp at hc
          exact hp ( List.isPrefixOf_iff_prefix.mpr ⟨q, hc.symm⟩)
        | cons p0 pt =>
          have hrest : rest = pt ++ pat ++ q := by
            have h2 := hc
            simp at h2
            simpa [List.append_assoc] using h2.2
          have := ih hsp pt q hrest
          rw [← h.1]
          simpa using Nat.succ_le_succ this

theorem containsSub_iff {pat s : List Char} :
    containsSub pat s = true ↔ ∃ p q : List Char, s = p ++ pat ++ q := by
  constructor
  · intro h
    rw [containsSub, Option.isSome_iff_exists] at h
    obtain ⟨pp, hpp⟩ := h
    obtain ⟨pre, post⟩ := pp
    exact ⟨pre, post, splitAtFirst_eq hpp⟩
  · intro ⟨p, q, hdec⟩
    rw [containsSub, Option.isSome_iff_exists]
    cases hsp : splitAtFirst pat s with
    | none => exact absurd hdec (splitAtFirst_none hsp p q)
    | some pp => exact ⟨pp, rfl⟩

theorem splitAtFirst_pre_not_contains {pat s pre post : List Char} (hpat : pat ≠ [])
    (h : splitAtFirst pat s = some (pre, post)) : containsSub pat pre = false := by
  rw [Bool.eq_false_iff]
  intro hc
  obtain ⟨p, q, hdec⟩ := containsSub_iff.mp hc
  have hs := splitAtFirst_eq h
  have hmin := splitAtFirst_min h p (q ++ pat ++ post)
    (by rw [hs, hdec]; simp [List.append_assoc])
  have : pre.length = p.length + pat.length + q.length := by
    rw [hdec]; simp [List.length_append]; omega
  have hp0 : 0 < pat.length := List.length_pos.mpr hpat
  omega

theorem contains_of_contains_extend {pat e s : List Char}
    (h : containsSub (pat ++ e) s = true) : containsSub pat s = true := by
  obtain ⟨p, q, hdec⟩ := containsSub_iff.mp h
  exact containsSub_iff.mpr ⟨p, e ++ q, by rw [hdec]; simp [List.append_assoc]⟩

theorem contains_of_inner {pat l s : List Char} (u v : List Char) (hs : s = u ++ l ++ v)
    (h : containsSub pat l = true) : containsSub pat s = true := by
  obtain ⟨p, q, hdec⟩ := containsSub_iff.mp h
  exact containsSub_iff.mpr ⟨u ++ p, q ++ v, by rw [hs, hdec]; simp [List.append_assoc]⟩


theorem drop_eq_of_append {s A u : List Char} (h : s = A ++ u) : s.drop A.length = u := by
  rw [h, List.drop_left]

theorem suffix_of_two_appends {s A B u v : List Char} (h1 : s = A ++ u) (h2 : s = B ++ v)
    (hlen : A.length ≤ B.length) : ∃ w, u = w ++ v := by
  have hu := drop_eq_of_append h1
  have hv := drop_eq_of_append h2
  have hvu : v = u.drop (B.length - A.length) := by
    rw [← hu, List.drop_drop, ← hv]
    congr 1
    omega
  exact ⟨u.take (B.length - A.length), by rw [hvu, List.take_append_drop]⟩

theorem findall_decomp {T C s : List Char} (h : findall T C s ≠ []) :
    ∃ p m q : List Char, s = p ++ T ++ m ++ C ++ q := by
  rw [findall, findallAux] at h
  cases h1 : splitAtFirst T s with
  | none => rw [h1] at h; simp at h
  | some pp =>
    obtain ⟨pre, afterOpen⟩ := pp
    simp only [h1] at h
    cases h2 : splitAtFirst C afterOpen with
    | none => simp only [h2] at h; simp at h
    | some qq =>
      obtain ⟨cap, afterClose⟩ := qq
      simp only [h2] at h
      have e1 := splitAtFirst_eq h1
      have e2 := splitAtFirst_eq h2
      exact ⟨pre, cap, afterClose, by rw [e1, e2]; simp [List.append_assoc]⟩

theorem findall_of_decomp {T C s : List Char} (p m q : List Char)
    (h : s = p ++ T ++ m ++ C ++ q) : findall T C s ≠ [] := by
  cases h1 : splitAtFirst T s with
  | none => exact absurd (by simpa [List.append_assoc] using h) (splitAtFirst_none h1 p (m ++ C ++ q))
  | some pp =>
    obtain ⟨pre, afterOpen⟩ := pp
    have e1 := splitAtFirst_eq h1
    have hmin := splitAtFirst_min h1 p (m ++ C ++ q) (by simpa [List.append_assoc] using h)
    have hsfx : ∃ w, afterOpen = w ++ (m ++ (C ++ q)) :=
      @suffix_of_two_appends s (pre ++ T) (p ++ T) afterOpen (m ++ (C ++ q))
        (by simpa [List.append_assoc] using e1) (by simpa [List.append_assoc] using h)
        (by simp [List.length_append]; omega)
    obtain ⟨w, hw⟩ := hsfx
    cases h2 : splitAtFirst C afterOpen with
    | none =>
      exact absurd (by rw [hw]; simp [List.append_assoc]) (splitAtFirst_none h2 (w ++ m) q)
    | some qq =>
      obtain ⟨cap, afterClose⟩ := qq
      rw [findall, findallAux]
      simp only [h1, h2]
      simp

theorem findall_nil_of_not_contains {T C e s : List Char} (hT : T = C ++ e)
    (h : containsSub C s = false) : findall T C s = [] := by
  by_contra hne
  obtain ⟨p, m, q, hdec⟩ := findall_decomp hne
  have : containsSub C s = true :=
    containsSub_iff.mpr ⟨p, e ++ m ++ C ++ q, by rw [hdec, hT]; simp [List.append_assoc]⟩
  rw [this] at h
  exact Bool.noConfusion h

theorem findall_mem_not_contains {T C s b : List Char} (hC : C ≠ [])
    (hb : b ∈ findall T C s) : containsSub C b = false := by
  rw [findall] at hb
  generalize hf : s.length + 1 = fuel at hb
  clear hf
  induction fuel generalizing s with
  | zero => rw [findallAux] at hb; exact absurd hb (List.not_mem_nil b)
  | succ n ih =>
    rw [findallAux] at hb
    cases h1 : splitAtFirst T s with
    | none => rw [h1] at hb; exact absurd hb (List.not_mem_nil b)
    | some pp =>
      obtain ⟨pre, afterOpen⟩ := pp
      simp only [h1] at hb
      cases h2 : splitAtFirst C afterOpen with
      | none => simp only [h2] at hb; exact absurd hb (List.not_mem_nil b)
      | some qq =>
        obtain ⟨cap, afterClose⟩ := qq
        simp only [h2] at hb
        rcases List.mem_cons.mp hb with hcap | hrec
        · subst hcap
          exact splitAtFirst_pre_not_contains hC h2
        · exact ih hrec

theorem dropWhile_head_not {p : Char → Bool} {s t : List Char} {c : Char}
    (h : s.dropWhile p = c :: t) : p c = false := by
  induction s with
  | nil => simp [List.dropWhile] at h
  | cons a rest ih =>
    rw [List.dropWhile_cons] at h
    by_cases hpa : p a
    · rw [if_pos hpa] at h
      exact ih h
    · rw [if_neg hpa] at h
      obtain ⟨h1, h2⟩ := List.cons.injEq .. ▸ h
      simp at h
      rw [← h.1]
      exact Bool.eq_false_iff.mpr hpa

theorem dropWhile_self {p : Char → Bool} (s : List Char) :
    (s.dropWhile p).dropWhile p = s.dropWhile p := by
  cases h : s.dropWhile p with
  | nil => simp
  | cons c t =>
    rw [List.dropWhile_cons, if_neg (by simp [dropWhile_head_not h])]

theorem dropWhile_decomp {p : Char → Bool} (s : List Char) :
    ∃ u, s = u ++ s.dropWhile p := by
  induction s with
  | nil => exact ⟨[], rfl⟩
  | cons a rest ih =>
    rw [List.dropWhile_cons]
    by_cases hpa : p a
    · rw [if_pos hpa]
      obtain ⟨u, hu⟩ := ih
      exact ⟨a :: u, by rw [List.cons_append, ← hu]⟩
    · rw [if_neg hpa]
      exact ⟨[], rfl⟩

theorem strip_prefix_decomp (s : List Char) :
    ∃ w, s.dropWhile pyIsSpace = strip s ++ w := by
  obtain ⟨u, hu⟩ := @dropWhile_decomp pyIsSpace ((s.dropWhile pyIsSpace).reverse)
  refine ⟨u.reverse, ?_⟩
  have h2 := congrArg List.reverse hu
  rw [List.reverse_reverse, List.reverse_append] at h2
  rw [strip]
  exact h2

theorem strip_infix_decomp (s : List Char) : ∃ u v, s = u ++ strip s ++ v := by
  obtain ⟨u, hu⟩ := @dropWhile_decomp pyIsSpace s
  obtain ⟨w, hw⟩ := strip_prefix_decomp s
  refine ⟨u, w, ?_⟩
  conv_lhs => rw [hu, hw]
  simp [List.append_assoc]

theorem dropWhile_strip (s : List Char) : (strip s).dropWhile pyIsSpace = strip s := by
  cases h : strip s with
  | nil => simp
  | cons c t =>
    obtain ⟨w, hw⟩ := strip_prefix_decomp s
    rw [h] at hw
    have : pyIsSpace c = false :=
      dropWhile_head_not (show List.dropWhile pyIsSpace s = c :: (t ++ w) by rw [hw]; rfl)
    rw [List.dropWhile_cons, if_neg (by simp [this])]

theorem strip_idem (s : List Char) : strip (strip s) = strip s := by
  rw [strip, dropWhile_strip, strip, List.reverse_reverse, dropWhile_self]

theorem tagPython_eq : tagPython = fence ++ ("python\n").toList := by decide

theorem tagPy_eq : tagPy = fence ++ ("py\n").toList := by decide

theorem tagGeneric_eq : tagGeneric = fence ++ ("\n").toList := by decide

theorem fence_ne_nil : fence ≠ [] := by decide

theorem extract_of_not_contains_fence {t : List Char} (h : containsSub fence t = false) :
    extract_code_from_message t = strip t := by
  rw [extract_code_from_message,
    findall_nil_of_not_contains tagPython_eq h,
    findall_nil_of_not_contains tagPy_eq h,
    findall_nil_of_not_contains tagGeneric_eq h]

theorem not_contains_strip {pat t : List Char} (h : containsSub pat t = false) :
    containsSub pat (strip t) = false := by
  rw [Bool.eq_false_iff]
  intro hc
  obtain ⟨u, v, huv⟩ := strip_infix_decomp t
  rw [contains_of_inner u v huv hc] at h
  exact Bool.noConfusion h

theorem extract_of_first_match {m : List Char} (hm : containsSub fence m = false) :
    extract_code_from_message (strip m) = strip m := by
  have h2 : containsSub fence (strip m) = false := not_contains_strip hm
  rw [extract_of_not_contains_fence h2, strip_idem]

theorem findall_nil_strip {T C s : List Char} (h : findall T C s = []) :
    findall T C (strip s) = [] := by
  by_contra hne
  obtain ⟨p, m, q, hdec⟩ := findall_decomp hne
  obtain ⟨u, v, huv⟩ := strip_infix_decomp s
  refine findall_of_decomp (u ++ p) m (q ++ v) ?_ h
  rw [huv, hdec]
  simp [List.append_assoc]

theorem maxLen_mem : ∀ {l : List (List Char)}, l ≠ [] → maxLen l ∈ l := by
  intro l
  induction l with
  | nil => intro h; exact absurd rfl h
  | cons b t ih =>
    intro _
    cases t with
    | nil => simp [maxLen]
    | cons b2 bs =>
      rw [maxLen]
      by_cases hlt : b.length < (maxLen (b2 :: bs)).length
      · simp only [if_pos hlt]
        exact List.mem_cons_of_mem b (ih (by simp))
      · simp only [if_neg hlt]
        exact List.mem_cons_self b _

theorem maxLen_le : ∀ {l : List (List Char)} {x : List Char}, x ∈ l → x.length ≤ (maxLen l).length := by
  intro l
  induction l with
  | nil => intro x hx; exact absurd hx (List.not_mem_nil x)
  | cons b t ih =>
    intro x hx
    cases t with
    | nil =>
      rcases List.mem_cons.mp hx with h | h
      · subst h; simp [maxLen]
      · exact absurd h (List.not_mem_nil x)
    | cons b2 bs =>
      rw [maxLen]
      by_cases hlt : b.length < (maxLen (b2 :: bs)).length
      · simp only [if_pos hlt]
        rcases List.mem_cons.mp hx with h | h
        · subst h; exact le_of_lt hlt
        · exact ih h
      · simp only [if_neg hlt]
        rcases List.mem_cons.mp hx with h | h
        · subst h; exact le_refl _
        · exact le_trans (ih h) (Nat.not_lt.mp hlt)

theorem extract_code_idem (x : List Char) :
    extract_code_from_message (extract_code_from_message x) = extract_code_from_message x := by
  cases h1 : findall tagPython fence x with
  | cons m t =>
    have hx : extract_code_from_message x = strip m := by
      rw [extract_code_from_message, h1]
    rw [hx]
    exact extract_of_first_match
      (findall_mem_not_contains fence_ne_nil (by rw [h1]; exact List.mem_cons_self m t))
  | nil =>
    cases h2 : findall tagPy fence x with
    | cons m t =>
      have hx : extract_code_from_message x = strip m := by
        rw [extract_code_from_message, h1, h2]
      rw [hx]
      exact extract_of_first_match
        (findall_mem_not_contains fence_ne_nil (by rw [h2]; exact List.mem_cons_self m t))
    | nil =>
      cases h3 : findall tagGeneric fence x with
      | cons m t =>
        have hx : extract_code_from_message x = strip m := by
          rw [extract_code_from_message, h1, h2, h3]
        rw [hx]
        exact extract_of_first_match
          (findall_mem_not_contains fence_ne_nil (by rw [h3]; exact List.mem_cons_self m t))
      | nil =>
        have hx : extract_code_from_message x = strip x := by
          rw [extract_code_from_message, h1, h2, h3]
        rw [hx, extract_code_from_message, findall_nil_strip h1, findall_nil_strip h2,
          findall_nil_strip h3, strip_idem]

theorem check_rate_limit_none (now : ℚ) :
    check_rate_limit none now = ({ requests := [now], last_reset := now }, true, 0) := by
  rw [check_rate_limit]
  have h1 : ¬ RATE_LIMIT_SECONDS < now - now := by
    rw [RATE_LIMIT_SECONDS, sub_self]
    norm_num
  simp [h1, MAX_REQUESTS_PER_MINUTE]

theorem check_rate_limit_allows (w : UserWindow) (now : ℚ)
    (h1 : ¬ RATE_LIMIT_SECONDS < now - w.last_reset)
    (h2 : w.requests.length < MAX_REQUESTS_PER_MINUTE) :
    check_rate_limit (some w) now
      = ({ requests := w.requests ++ [now], last_reset := w.last_reset }, true, 0) := by
  rw [check_rate_limit]
  simp [h1, Nat.not_le.mpr h2]

theorem check_rate_limit_reject (w : UserWindow) (now : ℚ)
    (h1 : ¬ RATE_LIMIT_SECONDS < now - w.last_reset)
    (h2 : MAX_REQUESTS_PER_MINUTE ≤ w.requests.length) :
    check_rate_limit (some w) now
      = (w, false, max 0 (pyInt (RATE_LIMIT_SECONDS - (now - w.last_reset)))) := by
  rw [check_rate_limit]
  simp [h1, h2]

theorem one_le_pyInt {q : ℚ} (h : 1 ≤ q) : 1 ≤ pyInt q := by
  have hq0 : (0:ℚ) ≤ q := le_trans zero_le_one h
  have hnum : 0 ≤ q.num := Rat.num_nonneg.mpr hq0
  have hden : (0:ℤ) < (q.den : ℤ) := by exact_mod_cast q.den_pos
  have hdenq : (0:ℚ) < (q.den : ℚ) := by exact_mod_cast q.den_pos
  have hdn : (q.den : ℤ) ≤ q.num := by
    have h2 : (1:ℚ) ≤ (q.num : ℚ) / (q.den : ℚ) := by rw [Rat.num_div_den]; exact h
    exact_mod_cast (one_le_div hdenq).mp h2
  rw [pyInt, Int.tdiv_eq_ediv hnum (le_of_lt hden)]
  exact (Int.le_ediv_iff_mul_le hden).mpr (by linarith)

/-- Claim C1: the delivered final test code is the artifact extraction
applied to the WriteTests output (index 1) when at least the analyze and
write_tests outputs exist, and to the aggregate raw output otherwise —
for both the bot delivery path (`genTests`) and the save path
(`run_and_save_tests`). -/
theorem final_artifact_selection (r : CrewResult) :
    genTests r = deliveredArtifact
        (if 2 ≤ r.tasks_output.length then r.tasks_output.getD 1 [] else r.raw)
    ∧ run_and_save_tests r = savedArtifact
        (if 2 ≤ r.tasks_output.length then r.tasks_output.getD 1 [] else r.raw) := by
  by_cases h : 2 ≤ r.tasks_output.length
  · have hne : r.tasks_output ≠ [] := by
      intro hn
      rw [hn] at h
      simp at h
    rw [if_pos h]
    constructor
    · simp only [genTests, deliveredArtifact, hne, h, ne_eq, not_false_eq_true, and_self, if_true]
    · simp only [run_and_save_tests, savedArtifact, hne, h, ne_eq, not_false_eq_true, and_self,
        if_true]
  · rw [if_neg h]
    have hcond : ¬ (r.tasks_output ≠ [] ∧ 2 ≤ r.tasks_output.length) := fun hc => h hc.2
    constructor
    · simp only [genTests, deliveredArtifact, hcond, if_false]
    · simp only [run_and_save_tests, savedArtifact, hcond, if_false]

/-- Claim C2 counterexample: on a text with a 10-character and a
50-character fenced python block, `extract_code_from_message` returns
the 10-character (first) block although a strictly longer region of the
same tag is present — so not every artifact-extraction operation of the
program selects the longest region. -/
theorem first_block_counterexample :
    extract_code_from_message ex2 = List.replicate 10 'a'
    ∧ List.replicate 50 'b' ∈ findall tagPython fence ex2
    ∧ ¬ (List.replicate 50 'b').length ≤ (List.replicate 10 'a').length := by decide

/-- Claim C2 (amended): the stage-output extraction used by
`generate_tests` and `run_and_save` (`extractLongestBlock`) returns a
longest region among the same-tag fenced regions, but the inbound
message extraction `extract_code_from_message` returns the first
matched region, not the longest. -/
theorem extraction_longest_vs_first :
    (∀ tc b bs, containsSub litPython tc = true → findall tagPython fence tc = b :: bs →
      extractLongestBlock tc ∈ b :: bs
        ∧ ∀ x ∈ b :: bs, x.length ≤ (extractLongestBlock tc).length)
    ∧ (∀ text b bs, findall tagPython fence text = b :: bs →
      extract_code_from_message text = strip b) := by
  constructor
  · intro tc b bs hlit hfind
    have hval : extractLongestBlock tc = maxLen (b :: bs) := by
      rw [extractLongestBlock, if_pos hlit, hfind]
    rw [hval]
    exact ⟨maxLen_mem (by simp), fun x hx => maxLen_le hx⟩
  · intro text b bs hfind
    rw [extract_code_from_message, hfind]

/-- Witness for the amended C2 on the spec example: the stage-output
extraction picks the 50-character block, the message extraction the
first block. -/
theorem extraction_longest_vs_first_witness :
    (extractLongestBlock ex2 ∈ [List.replicate 10 'a', List.replicate 50 'b']
      ∧ ∀ x ∈ [List.replicate 10 'a', List.replicate 50 'b'],
          x.length ≤ (extractLongestBlock ex2).length)
    ∧ extract_code_from_message ex2 = strip (List.replicate 10 'a') :=
  ⟨extraction_longest_vs_first.1 ex2 (List.replicate 10 'a') [List.replicate 50 'b']
      (by decide) (by decide),
   extraction_longest_vs_first.2 ex2 (List.replicate 10 'a') [List.replicate 50 'b'] (by decide)⟩

/-- Claim C3: artifact extraction is idempotent, and on a text with no
fence marker it is passthrough — the stripped text, hence unchanged for
an already-stripped plain code string. -/
theorem extraction_idempotent :
    (∀ x, extract_code_from_message (extract_code_from_message x) = extract_code_from_message x)
    ∧ (∀ x, containsSub fence x = false → extract_code_from_message x = strip x)
    ∧ (∀ x, containsSub fence x = false → strip x = x → extract_code_from_message x = x) := by
  refine ⟨extract_code_idem, fun x hx => extract_of_not_contains_fence hx, ?_⟩
  intro x hx hs
  rw [extract_of_not_contains_fence hx, hs]

/-- Witness for C3 on a concrete plain code string. -/
theorem extraction_idempotent_witness :
    containsSub fence codeText = false ∧ strip codeText = codeText
      ∧ extract_code_from_message codeText = codeText :=
  ⟨by decide, by decide, extraction_idempotent.2.2 codeText (by decide) (by decide)⟩

unseal Rat.sub Rat.add in
/-- Claim C4 counterexample: six admission calls whose timestamps all
lie within one 60-second window ([0, 60]); the first five are admitted
and the sixth is rejected, but its reported retry_after is 0, not
strictly greater than 0. -/
theorem retry_after_zero_counterexample :
    (runCalls none [0, 0, 0, 0, 0, 60]).2
      = [(true, 0), (true, 0), (true, 0), (true, 0), (true, 0), (false, 0)]
    ∧ (0:ℚ) ≤ 60 ∧ (60:ℚ) ≤ 0 + RATE_LIMIT_SECONDS := by decide

/-- Claim C4 (amended): for timestamps all within one 60-second window
of the first call, the first five calls are admitted and the sixth is
rejected with retry_after equal to
`max 0 (int-truncation of (WINDOW_SECONDS - (now - window_start)))`,
which is strictly positive whenever the sixth call is at least one
second before the window's end. -/
theorem rate_limit_window_admissions
    (a1 a2 a3 a4 a5 a6 : ℚ)
    (h2l : a1 ≤ a2) (h2u : a2 ≤ a1 + RATE_LIMIT_SECONDS)
    (h3l : a1 ≤ a3) (h3u : a3 ≤ a1 + RATE_LIMIT_SECONDS)
    (h4l : a1 ≤ a4) (h4u : a4 ≤ a1 + RATE_LIMIT_SECONDS)
    (h5l : a1 ≤ a5) (h5u : a5 ≤ a1 + RATE_LIMIT_SECONDS)
    (h6l : a1 ≤ a6) (h6u : a6 ≤ a1 + RATE_LIMIT_SECONDS) :
    (runCalls none [a1, a2, a3, a4, a5, a6]).2
      = [(true, 0), (true, 0), (true, 0), (true, 0), (true, 0),
         (false, max 0 (pyInt (RATE_LIMIT_SECONDS - (a6 - a1))))]
    ∧ (a6 ≤ a1 + (RATE_LIMIT_SECONDS - 1)
        → 0 < max 0 (pyInt (RATE_LIMIT_SECONDS - (a6 - a1)))) := by
  have hn2 : ¬ RATE_LIMIT_SECONDS < a2 - a1 := by rw [not_lt]; linarith
  have hn3 : ¬ RATE_LIMIT_SECONDS < a3 - a1 := by rw [not_lt]; linarith
  have hn4 : ¬ RATE_LIMIT_SECONDS < a4 - a1 := by rw [not_lt]; linarith
  have hn5 : ¬ RATE_LIMIT_SECONDS < a5 - a1 := by rw [not_lt]; linarith
  have hn6 : ¬ RATE_LIMIT_SECONDS < a6 - a1 := by rw [not_lt]; linarith
  have e1 := check_rate_limit_none a1
  have e2 := check_rate_limit_allows { requests := [a1], last_reset := a1 } a2 hn2
    (by norm_num [MAX_REQUESTS_PER_MINUTE])
  have e3 := check_rate_limit_allows { requests := [a1, a2], last_reset := a1 } a3 hn3
    (by norm_num [MAX_REQUESTS_PER_MINUTE])
  have e4 := check_rate_limit_allows { requests := [a1, a2, a3], last_reset := a1 } a4 hn4
    (by norm_num [MAX_REQUESTS_PER_MINUTE])
  have e5 := check_rate_limit_allows { requests := [a1, a2, a3, a4], last_reset := a1 } a5 hn5
    (by norm_num [MAX_REQUESTS_PER_MINUTE])
  have e6 := check_rate_limit_reject { requests := [a1, a2, a3, a4, a5], last_reset := a1 } a6 hn6
    (by norm_num [MAX_REQUESTS_PER_MINUTE])
  constructor
  · simp [runCalls, e1, e2, e3, e4, e5, e6]
  · intro h59
    have h1le : (1:ℚ) ≤ RATE_LIMIT_SECONDS - (a6 - a1) := by linarith
    exact lt_of_lt_of_le (lt_of_lt_of_le Int.zero_lt_one (one_le_pyInt h1le))
      (le_max_right 0 _)

/-- Witness for the amended C4: six calls at time 0. -/
theorem rate_limit_window_admissions_witness :
    (runCalls none [0, 0, 0, 0, 0, 0]).2
      = [(true, 0), (true, 0), (true, 0), (true, 0), (true, 0),
         (false, max 0 (pyInt (RATE_LIMIT_SECONDS - ((0:ℚ) - 0))))]
    ∧ 0 < max 0 (pyInt (RATE_LIMIT_SECONDS - ((0:ℚ) - 0))) := by
  have h := rate_limit_window_admissions 0 0 0 0 0 0
    (le_refl 0) (by norm_num [RATE_LIMIT_SECONDS])
    (le_refl 0) (by norm_num [RATE_LIMIT_SECONDS])
    (le_refl 0) (by norm_num [RATE_LIMIT_SECONDS])
    (le_refl 0) (by norm_num [RATE_LIMIT_SECONDS])
    (le_refl 0) (by norm_num [RATE_LIMIT_SECONDS])
  exact ⟨h.1, h.2 (by norm_num [RATE_LIMIT_SECONDS])⟩

/-- Claim C5: an admission call arriving more than WINDOW_SECONDS after
window_start clears the retained timestamps, sets window_start to now,
and is admitted no matter how many timestamps were retained. -/
theorem rate_limit_full_reset (w : UserWindow) (now : ℚ)
    (h : RATE_LIMIT_SECONDS < now - w.last_reset) :
    check_rate_limit (some w) now = ({ requests := [now], last_reset := now }, true, 0) := by
  rw [check_rate_limit]
  simp [h, MAX_REQUESTS_PER_MINUTE]

/-- Witness for C5: a window holding seven stale timestamps is reset and
the call admitted. -/
theorem rate_limit_full_reset_witness :
    check_rate_limit (some { requests := [0, 0, 0, 0, 0, 0, 0], last_reset := 0 }) 61
      = ({ requests := [61], last_reset := 61 }, true, 0) :=
  rate_limit_full_reset { requests := [0, 0, 0, 0, 0, 0, 0], last_reset := 0 } 61
    (by norm_num [RATE_LIMIT_SECONDS])

unseal Rat.sub in
/-- Claim C6 counterexample: user 7 is awaiting code, sends a valid
admitted code message, the pipeline run fails (`gen` returns `None`),
and afterwards the session state is still `waiting_code`, not Idle. -/
theorem state_kept_on_failure_counterexample :
    (handle_code_message (fun _ => none) botSt0 7 0 codeText).1.user_states 7
        = some PyUserState.waiting_code
      ∧ (handle_code_message (fun _ => none) botSt0 7 0 codeText).2 = Reply.gen_failed := by
  decide

/-- Claim C6 (amended): for an admitted, code-looking message, the
user's session state is popped (reset to Idle) only on the success path
(a truthy tests result); on the failure path of the run the session
state is left unchanged. -/
theorem state_reset_only_on_success
    (gen : List Char → Option (List Char)) (st : BotState) (uid : Nat) (now : ℚ)
    (text : List Char)
    (hallow : (check_rate_limit (st.rate_limit uid) now).2.1 = true)
    (hcode : extract_code_from_message text ≠ [])
    (hpy : looks_like_python (extract_code_from_message text) = true) :
    (∀ t, gen (extract_code_from_message text) = some t → t ≠ [] →
      (handle_code_message gen st uid now text).1.user_states uid = none
        ∧ (handle_code_message gen st uid now text).2 = Reply.tests_ok t)
    ∧ (gen (extract_code_from_message text) = none →
      (handle_code_message gen st uid now text).1.user_states uid = st.user_states uid
        ∧ (handle_code_message gen st uid now text).2 = Reply.gen_failed) := by
  constructor
  · intro t hgen ht
    simp [handle_code_message, hallow, hcode, hpy, hgen, ht]
  · intro hgen
    simp [handle_code_message, hallow, hcode, hpy, hgen]

unseal Rat.sub in
/-- Witness for the amended C6 on the failure path. -/
theorem state_reset_only_on_success_witness :
    (handle_code_message (fun _ => none) botSt0 7 0 codeText).1.user_states 7
        = botSt0.user_states 7
      ∧ (handle_code_message (fun _ => none) botSt0 7 0 codeText).2 = Reply.gen_failed :=
  (state_reset_only_on_success (fun _ => none) botSt0 7 0 codeText (by decide) (by decide)
    (by decide)).2 rfl

unseal Rat.sub in
/-- Claim C7 counterexample: a run whose stage raises and a run that
succeeds with an empty extraction produce the identical generic
generation-failure report. -/
theorem same_report_counterexample :
    (handle_code_message (fun c => (generate_tests crewErr c).1) botSt0 7 0 codeText).2
        = (handle_code_message (fun c => (generate_tests crewEmpty c).1) botSt0 7 0 codeText).2
      ∧ (handle_code_message (fun c => (generate_tests crewErr c).1) botSt0 7 0 codeText).2
        = Reply.gen_failed := by
  decide

/-- Claim C7 (amended): for an admitted code-looking message, a
stage-execution error (the pipeline raising) and an empty extraction
are reported to the caller with the same generic generation-failure
reply; no truncated diagnostic distinguishes them on this path. -/
theorem failure_reports_merged
    (crew : List Char → Except (List Char) CrewResult) (st : BotState) (uid : Nat)
    (now : ℚ) (text : List Char)
    (hallow : (check_rate_limit (st.rate_limit uid) now).2.1 = true)
    (hcode : extract_code_from_message text ≠ [])
    (hpy : looks_like_python (extract_code_from_message text) = true) :
    (∀ e, crew (extract_code_from_message text) = Except.error e →
      (handle_code_message (fun c => (generate_tests crew c).1) st uid now text).2
        = Reply.gen_failed)
    ∧ (∀ r, crew (extract_code_from_message text) = Except.ok r → genTests r = none →
      (handle_code_message (fun c => (generate_tests crew c).1) st uid now text).2
        = Reply.gen_failed) := by
  constructor
  · intro e he
    simp [handle_code_message, generate_tests, hallow, hcode, hpy, he]
  · intro r hr hg
    simp [handle_code_message, generate_tests, hallow, hcode, hpy, hr, hg]

unseal Rat.sub in
/-- Witness for the amended C7 on a raising pipeline. -/
theorem failure_reports_merged_witness :
    (handle_code_message (fun c => (generate_tests crewErr c).1) botSt0 7 0 codeText).2
      = Reply.gen_failed :=
  (failure_reports_merged crewErr botSt0 7 0 codeText (by decide) (by decide) (by decide)).1
    (("No API key found").toList) rfl

/-- Claim C8: evaluation at the failing input — with the coverage
package missing, `import coverage` raises ImportError before the
function-local `import json` has executed, so the except-ImportError
handler's `json.dumps` hits the unbound local and UnboundLocalError
escapes `_run` to the caller instead of a diagnostic being returned.
Failures after the imports complete do return their diagnostics, the
syntax checker renders a SyntaxError from `compile`, and a compile
exception other than SyntaxError escapes the syntax checker. -/
theorem coverage_missing_dependency_raises :
    CoverageTool_run CoverageBody.importErrorEarly = Except.error PyExc.unboundLocalError
    ∧ CoverageTool_run CoverageBody.importErrorLate = Except.ok coverage_import_error_json
    ∧ CoverageTool_run CoverageBody.timeoutExpired = Except.ok coverage_timeout_json
    ∧ (∀ m, CoverageTool_run (CoverageBody.otherExc m) = Except.ok (coverage_generic_json m))
    ∧ SyntaxCheckerTool_run (("python").toList) CompileOutcome.ok
        = Except.ok syntax_valid_json
    ∧ (∀ e, SyntaxCheckerTool_run (("python").toList) (CompileOutcome.syntaxError e)
        = Except.ok (syntax_invalid_json e))
    ∧ (∀ exc, SyntaxCheckerTool_run (("python").toList) (CompileOutcome.otherExc exc)
        = Except.error exc) :=
  ⟨rfl, rfl, rfl, fun _ => rfl, rfl, fun _ => rfl, fun _ => rfl⟩

/-- Claim C9: evaluation at the failing input — when the pipeline run
raises (for example `get_llm`'s ValueError with no API key configured),
`generate_tests` returns `None` with the temporary source file still on
disk; only a normally returning run unlinks it. -/
theorem temp_file_leak_on_error :
    generate_tests crewErr codeText = (none, true)
    ∧ (∀ r : CrewResult, (generate_tests (fun _ => Except.ok r) codeText).2 = false) := by
  exact ⟨rfl, fun r => rfl⟩

/-- Claim C10: a message that is admitted by the rate limiter but then
rejected as not resembling code has already had its timestamp appended
to the sender's window — the rejection still consumes an admission
slot. -/
theorem rejected_message_consumes_slot
    (gen : List Char → Option (List Char)) (st : BotState) (uid : Nat) (now : ℚ)
    (text : List Char) (w : UserWindow)
    (hw : st.rate_limit uid = some w)
    (hnores : ¬ RATE_LIMIT_SECONDS < now - w.last_reset)
    (hlen : w.requests.length < MAX_REQUESTS_PER_MINUTE)
    (hcode : extract_code_from_message text ≠ [])
    (hpy : looks_like_python (extract_code_from_message text) = false) :
    (handle_code_message gen st uid now text).1.rate_limit uid
        = some { requests := w.requests ++ [now], last_reset := w.last_reset }
      ∧ (handle_code_message gen st uid now text).2 = Reply.not_python := by
  have e := check_rate_limit_allows w now hnores hlen
  simp [handle_code_message, hw, e, hcode, hpy]

/-- Witness for C10: the non-code message "hello" is rejected but the
timestamp is appended to the user's window. -/
theorem rejected_message_consumes_slot_witness :
    (handle_code_message (fun _ => none) botSt2 7 0 helloText).1.rate_limit 7
        = some { requests := w0.requests ++ [(0:ℚ)], last_reset := w0.last_reset }
      ∧ (handle_code_message (fun _ => none) botSt2 7 0 helloText).2 = Reply.not_python :=
  rejected_message_consumes_slot (fun _ => none) botSt2 7 0 helloText w0 rfl
    (by norm_num [RATE_LIMIT_SECONDS, w0]) (by norm_num [MAX_REQUESTS_PER_MINUTE, w0])
    (by decide) (by decide)

end TestingAgent
